import Mathlib

/-!
Verification of the response-recovery and schema-enforcement pipeline of the
`llm` repository (clients `test_model.py`, `test_ollama.py`, `test_gpt.py`).

The Python sources are shallowly embedded here:
pure string manipulation becomes functions on `List Char`; `json.loads`
becomes a total recursive-descent function returning `Option Json`
(numbers are kept exact as mantissa times a power of ten; the parser
follows the RFC 8259 grammar that `json.loads` implements in strict mode —
the CPython extensions `NaN`/`Infinity` and surrogate-pair joining are not
modelled, and no input in this development exercises them); the fallible
tail of `call_ollama` becomes a function into an explicit result type.
Python regular-expression calls are embedded as the deterministic textual
scans they denote; each embedding carries a comment naming the pattern.
-/

namespace Llm

/-- Left-brace character, written via its code point so that string scans
are explicit about it. -/
def lb : Char := Char.ofNat 123

/-- Right-brace character. -/
def rb : Char := Char.ofNat 125

/-- Whitespace as matched by Python's regex `\s` and by `str.split` /
`str.strip` (ASCII subset: space, tab, newline, carriage return, vertical
tab, form feed). -/
def pyIsSpace (c : Char) : Bool :=
  c == ' ' || c == '\t' || c == '\n' || c == '\r' || c == Char.ofNat 11 || c == Char.ofNat 12

/-- Case-sensitive test that `pat` begins the list `l`. -/
def begins : List Char → List Char → Bool
  | [], _ => true
  | _ :: _, [] => false
  | p :: ps, c :: cs => p == c && begins ps cs

/-- Case-insensitive test that the (lowercase) token `pat` begins `l`,
as the `re.IGNORECASE` flag compares literal patterns. -/
def ciStarts : List Char → List Char → Bool
  | [], _ => true
  | _ :: _, [] => false
  | p :: ps, c :: cs => p == c.toLower && ciStarts ps cs

/-- Literal token of the first alternative of the regex
`(?is)(thinking\.\.\.|done thinking\.)` in `extract_json_from_response`. -/
def thinkTok : List Char := "thinking...".data

/-- Literal token of the second alternative of the same regex. -/
def doneTok : List Char := "done thinking.".data

/-- Literal head of the regex `(?is)(we need to respond.*?)(?=\x7b)`. -/
def respondTok : List Char := "we need to respond".data

/-- Step 1a of `extract_json_from_response`:
`re.sub(r'(?is)(thinking\.\.\.|done thinking\.)', '', content)`.
The scan visits positions left to right; at each position the first
alternative is tried before the second (they can never both match, their
first characters differ), a match deletes the matched token and the scan
resumes after it, exactly as `re.sub` replaces non-overlapping matches.
The fuel argument makes the recursion structural (each step consumes at
least one character, so `cleanThinkingL` passes enough for any input);
`cleanThinkingGo_fuel` below shows the result does not depend on it. -/
def cleanThinkingGo : Nat → List Char → List Char
  | 0, l => l
  | _ + 1, [] => []
  | fuel + 1, c :: cs =>
    if ciStarts thinkTok (c :: cs) then cleanThinkingGo fuel ((c :: cs).drop 11)
    else if ciStarts doneTok (c :: cs) then cleanThinkingGo fuel ((c :: cs).drop 14)
    else c :: cleanThinkingGo fuel cs

/-- The thinking-marker removal pass on a whole character list. -/
def cleanThinkingL (l : List Char) : List Char := cleanThinkingGo (l.length + 1) l

/-- Suffix of `l` from its first left brace, when one exists; the
deletion span of `.*?` under the lookahead `(?=\x7b)` ends exactly there. -/
def dropToBrace (l : List Char) : Option (List Char) :=
  if l.contains lb then some (l.dropWhile (fun c => c != lb)) else none

theorem dropToBrace_length {l r : List Char} (h : dropToBrace l = some r) :
    r.length ≤ l.length := by
  unfold dropToBrace at h
  split at h
  · cases h
    exact (List.dropWhile_sublist _).length_le
  · cases h

/-- Step 1b of `extract_json_from_response`:
`re.sub(r'(?is)(we need to respond.*?)(?=\x7b)', '', cleaned)`.
A match starts where the literal `we need to respond` occurs
(case-insensitively) and, because of the non-greedy `.*?` with a
lookahead for a left brace, extends up to (excluding) the first left
brace after the literal; if no brace follows, the position does not
match and the scan moves on. Fuel as in `cleanThinkingGo`. -/
def cleanRespondGo : Nat → List Char → List Char
  | 0, l => l
  | _ + 1, [] => []
  | fuel + 1, c :: cs =>
    if ciStarts respondTok (c :: cs) then
      match dropToBrace ((c :: cs).drop 18) with
      | some rest => cleanRespondGo fuel rest
      | none => c :: cleanRespondGo fuel cs
    else c :: cleanRespondGo fuel cs

/-- The `we need to respond` removal pass on a whole character list. -/
def cleanRespondL (l : List Char) : List Char := cleanRespondGo (l.length + 1) l

/-- Index of the first character satisfying `p`, Python's `str.find`
(restricted to the single-character needles the source uses). -/
def firstIdx (p : Char → Bool) : List Char → Option Nat
  | [] => none
  | c :: cs => if p c then some 0 else (firstIdx p cs).map (· + 1)

/-- Kept characters of a list up to (excluding) the first position where
the `we need to respond` literal matches; when such a position exists and
a brace follows later in the surrounding text, the regex deletes
everything from that position to the brace. -/
def respondScrub : List Char → List Char
  | [] => []
  | c :: cs => if ciStarts respondTok (c :: cs) then [] else c :: respondScrub cs

/-- Step 2 of `extract_json_from_response`:
`start_idx = cleaned.find('\x7b'); if start_idx > 0: cleaned = cleaned[start_idx:]`.
Note the strict `> 0`: text already starting with a brace, and text with
no brace at all (`find` returns `-1`), are left unchanged. -/
def trimToBrace (l : List Char) : List Char :=
  match firstIdx (fun c => c == lb) l with
  | some i => if 0 < i then l.drop i else l
  | none => l

/-- Cleaned text after steps 1 and 2 of `extract_json_from_response`; this
is also the value returned by the function when every recovery strategy
fails (its final `return cleaned`). -/
def cleanedText (l : List Char) : List Char :=
  trimToBrace (cleanRespondL (cleanThinkingL l))

/-- Index of the last right brace of `l`, as `cleaned.rfind('\x7d')`. -/
def lastRb (l : List Char) : Option Nat :=
  match firstIdx (fun c => c == rb) l.reverse with
  | some j => some (l.length - 1 - j)
  | none => none

/-- Step 5 of `extract_json_from_response`:
`first = cleaned.find('\x7b'); last = cleaned.rfind('\x7d')`, and when both
exist with `last > first`, the slice `cleaned[first:last+1]`. -/
def braceSlice (l : List Char) : Option (List Char) :=
  match firstIdx (fun c => c == lb) l, lastRb l with
  | some f, some t => if f < t then some ((l.drop f).take (t - f + 1)) else none
  | _, _ => none

/-- Suffix of `l` just after the first occurrence of the (non-empty)
token `pat`, when one occurs. -/
def chopTok (pat : List Char) : List Char → Option (List Char)
  | [] => none
  | c :: cs =>
    if begins pat (c :: cs) then some ((c :: cs).drop pat.length)
    else chopTok pat cs

/-- Splits `l` at the first occurrence of the (non-empty) token `pat`:
the characters before it and the characters after it. -/
def splitTok (pat : List Char) : List Char → Option (List Char × List Char)
  | [] => none
  | c :: cs =>
    if begins pat (c :: cs) then some ([], (c :: cs).drop pat.length)
    else
      match splitTok pat cs with
      | some (pre, post) => some (c :: pre, post)
      | none => none

/-- Removal of trailing regex whitespace, as the `\s*` sitting between a
fenced group and its closing backticks absorbs it. -/
def trimEndWs (l : List Char) : List Char :=
  (l.reverse.dropWhile pyIsSpace).reverse

/-- Closing token of both fence patterns. -/
def tickTok : List Char := "```".data

/-- Opening token of the first fence pattern of step 4. -/
def fenceJsonTok : List Char := "```json".data

/-- Step 4 fence patterns: all groups captured by
`re.findall(r'```json\s*(.*?)\s*```', cleaned, re.DOTALL)` (with
`opener = fenceJsonTok`) or by the bare variant
`re.findall(r'```\s*(.*?)\s*```', cleaned, re.DOTALL)` (with
`opener = tickTok`). A match anchors at the leftmost occurrence of the
opener; the greedy `\s*` then skips the whitespace run after it, the
non-greedy `.*?` extends to the earliest point from which the closing
` ``` ` is reachable across whitespace only — that is, the group is the
text up to the first subsequent ` ``` ` with its trailing whitespace
stripped — and scanning resumes after the closing backticks. When the
first opener has no closing backticks anywhere after it, no later opener
can have one either (any later opener occurrence itself begins with
backticks), so the scan correctly stops. The fuel argument bounds the
number of matches; callers pass at least `l.length + 1`, which is more
than the maximal possible number of non-overlapping matches. -/
def scanFence (opener : List Char) : Nat → List Char → List (List Char)
  | 0, _ => []
  | fuel + 1, l =>
    match chopTok opener l with
    | none => []
    | some afterOpen =>
      let body := afterOpen.dropWhile pyIsSpace
      match splitTok tickTok body with
      | none => []
      | some (grp, rest) => trimEndWs grp :: scanFence opener fuel rest

/-- Step 4 greedy brace pattern `re.findall(r'(\x7b.*\x7d)', cleaned, re.DOTALL)`.
The leftmost match starts at the first left brace followed by some right
brace, and the greedy `.*` makes it end at the last right brace of the
whole text; the remainder after that point contains no right brace, so
there is never a second match. This is exactly the step 5 slice from the
first left brace to the last right brace (the first left brace followed
by any right brace is the first left brace outright whenever the slice is
non-degenerate), hence the embedding reuses `braceSlice`. -/
def greedyBraces (l : List Char) : List (List Char) :=
  match braceSlice l with
  | some c => [c]
  | none => []

/-- Step 4 non-greedy brace pattern `re.findall(r'(\x7b.*?\x7d)', cleaned, re.DOTALL)`:
repeatedly, the next match runs from the first remaining left brace to
the first right brace after it, and scanning resumes past that right
brace. Callers pass fuel of at least `l.length + 1`. -/
def lazyBraces : Nat → List Char → List (List Char)
  | 0, _ => []
  | fuel + 1, l =>
    match firstIdx (fun c => c == lb) l with
    | none => []
    | some p =>
      let fromB := l.drop p
      match firstIdx (fun c => c == rb) (fromB.drop 1) with
      | none => []
      | some q => fromB.take (q + 2) :: lazyBraces fuel (fromB.drop (q + 2))

/-- A JSON number kept exact: `mantissa * 10 ^ exp10`. Python's
`json.loads` would convert to `int`/`float`; the claims about the schema
only compare numbers against the bounds 0 and 1, where the exact reading
agrees with the source on every input considered. -/
structure JNum where
  mantissa : Int
  exp10 : Int

/-- A parsed JSON value, as produced by `json.loads`: objects are
insertion-ordered key/value lists with the last duplicate key winning,
mirroring Python `dict` construction. -/
inductive Json where
  | null
  | bool (b : Bool)
  | num (n : JNum)
  | str (s : String)
  | arr (elems : List Json)
  | obj (members : List (String × Json))

/-- JSON whitespace as skipped by `json.loads` between tokens. -/
def jWsDrop (l : List Char) : List Char :=
  l.dropWhile (fun c => c == ' ' || c == '\t' || c == '\n' || c == '\r')

/-- Value of a decimal digit character. -/
def digitVal (c : Char) : Nat := c.toNat - '0'.toNat

/-- Maximal run of decimal digits at the head of `l`, and the rest. -/
def grabDigits (l : List Char) : List Char × List Char :=
  (l.takeWhile Char.isDigit, l.dropWhile Char.isDigit)

/-- Natural number denoted by a digit run. -/
def digitsNat (ds : List Char) : Nat :=
  ds.foldl (fun a c => a * 10 + digitVal c) 0

/-- Fraction part of the JSON number grammar: either absent, or a dot
followed by at least one digit. -/
def fracOf : List Char → Option (List Char × List Char)
  | [] => some ([], [])
  | c :: r =>
    if c == '.' then
      let (fds, rest) := grabDigits r
      if fds.isEmpty then none else some (fds, rest)
    else some ([], c :: r)

/-- Exponent part of the JSON number grammar: either absent, or `e`/`E`,
an optional sign, and at least one digit. -/
def expOf : List Char → Option (Int × List Char)
  | [] => some (0, [])
  | c :: r =>
    if c == 'e' || c == 'E' then
      let (neg, r2) : Bool × List Char :=
        match r with
        | s :: r' => if s == '+' then (false, r') else if s == '-' then (true, r') else (false, r)
        | [] => (false, [])
      let (eds, rest) := grabDigits r2
      if eds.isEmpty then none
      else some ((if neg then -(digitsNat eds : Int) else (digitsNat eds : Int)), rest)
    else some (0, c :: r)

/-- JSON number grammar (`-? int frac? exp?`, leading zeros rejected),
as accepted by `json.loads`. -/
def parseNum (l : List Char) : Option (JNum × List Char) :=
  let (neg, l1) : Bool × List Char :=
    match l with
    | c :: r => if c == '-' then (true, r) else (false, l)
    | [] => (false, l)
  let (ids, l2) := grabDigits l1
  if ids.isEmpty then none
  else if 1 < ids.length && ids.headD 'x' == '0' then none
  else
    match fracOf l2 with
    | none => none
    | some (fds, l3) =>
      match expOf l3 with
      | none => none
      | some (ev, l4) =>
        let mag : Nat := digitsNat (ids ++ fds)
        let man : Int := if neg then -(mag : Int) else (mag : Int)
        some (⟨man, ev - (fds.length : Int)⟩, l4)

/-- Single-character string escapes of JSON, as a lookup table from the
escape letter to the denoted character (backspace and form feed written
by code point). -/
def escTable : List (Char × Char) :=
  [('"', '"'), ('\\', '\\'), ('/', '/'), ('b', Char.ofNat 8), ('f', Char.ofNat 12),
    ('n', '\n'), ('r', '\r'), ('t', '\t')]

/-- Character denoted by a single-letter escape, when the letter is one
of the eight legal ones. -/
def escMap (c : Char) : Option Char :=
  (escTable.find? (fun p => p.1 == c)).map (fun p => p.2)

/-- Value of a hexadecimal digit character, by code point: digits, then
lowercase `a`-`f`, then uppercase `A`-`F`. -/
def hexDigit (c : Char) : Option Nat :=
  let n := c.toNat
  if 48 ≤ n && n ≤ 57 then some (n - 48)
  else if 97 ≤ n && n ≤ 102 then some (n - 87)
  else if 65 ≤ n && n ≤ 70 then some (n - 55)
  else none

/-- Body of a JSON string after its opening quote. Strict mode of
`json.loads`: raw control characters below 0x20 are rejected. -/
def strBody : Nat → List Char → List Char → Option (String × List Char)
  | 0, _, _ => none
  | fuel + 1, acc, l =>
    match l with
    | [] => none
    | c :: cs =>
      if c == '"' then some (String.mk acc.reverse, cs)
      else if c == '\\' then
        match cs with
        | 'u' :: a :: b :: c2 :: d :: rest =>
          match hexDigit a, hexDigit b, hexDigit c2, hexDigit d with
          | some va, some vb, some vc, some vd =>
            strBody fuel (Char.ofNat (((va * 16 + vb) * 16 + vc) * 16 + vd) :: acc) rest
          | _, _, _, _ => none
        | e :: rest =>
          match escMap e with
          | some ch => strBody fuel (ch :: acc) rest
          | none => none
        | [] => none
      else if c.toNat < 32 then none
      else strBody fuel (c :: acc) cs

/-- Insertion into the object accumulator with Python `dict` semantics:
a duplicate key keeps its first position and takes the new value. -/
def dictInsert : List (String × Json) → String → Json → List (String × Json)
  | [], k, v => [(k, v)]
  | (k0, v0) :: rest, k, v =>
    if k0 == k then (k0, v) :: rest else (k0, v0) :: dictInsert rest k v

mutual

/-- Recursive-descent reading of one JSON value, the grammar `json.loads`
accepts in strict mode. Fuel only bounds recursion; `jsonParseL` passes
enough for any input of the given length. -/
def parseVal : Nat → List Char → Option (Json × List Char)
  | 0, _ => none
  | fuel + 1, l =>
    match l with
    | [] => none
    | c :: cs =>
      if c == 'n' then
        if begins "ull".data cs then some (.null, cs.drop 3) else none
      else if c == 't' then
        if begins "rue".data cs then some (.bool true, cs.drop 3) else none
      else if c == 'f' then
        if begins "alse".data cs then some (.bool false, cs.drop 4) else none
      else if c == '"' then
        match strBody fuel [] cs with
        | some (s, rest) => some (.str s, rest)
        | none => none
      else if c == lb then objBody fuel (jWsDrop cs) []
      else if c == '[' then arrBody fuel (jWsDrop cs) []
      else
        match parseNum (c :: cs) with
        | some (n, rest) => some (.num n, rest)
        | none => none

/-- Members of an object after its opening brace (whitespace skipped):
either an immediate closing brace when nothing has been read yet, or a
quoted key, a colon, a value, and then a comma (more members) or a
closing brace. Trailing commas are rejected, as `json.loads` does. -/
def objBody : Nat → List Char → List (String × Json) → Option (Json × List Char)
  | 0, _, _ => none
  | fuel + 1, l, acc =>
    match l with
    | [] => none
    | c :: cs =>
      if c == '"' then
        match strBody fuel [] cs with
        | some (k, r1) =>
          match jWsDrop r1 with
          | ':' :: r2 =>
            match parseVal fuel (jWsDrop r2) with
            | some (v, r3) =>
              match jWsDrop r3 with
              | ',' :: r4 => objBody fuel (jWsDrop r4) (dictInsert acc k v)
              | c2 :: r4 => if c2 == rb then some (.obj (dictInsert acc k v), r4) else none
              | [] => none
            | none => none
          | _ => none
        | none => none
      else if c == rb && acc.isEmpty then some (.obj acc, cs)
      else none

/-- Elements of an array after its opening bracket (whitespace skipped). -/
def arrBody : Nat → List Char → List Json → Option (Json × List Char)
  | 0, _, _ => none
  | fuel + 1, l, acc =>
    match l with
    | [] => none
    | c :: cs =>
      if c == ']' && acc.isEmpty then some (.arr acc.reverse, cs)
      else
        match parseVal fuel l with
        | some (v, r1) =>
          match jWsDrop r1 with
          | ',' :: r2 => arrBody fuel (jWsDrop r2) (v :: acc)
          | c2 :: r2 => if c2 == ']' then some (.arr (v :: acc).reverse, r2) else none
          | [] => none
        | none => none

end

/-- Embedding of `json.loads` on character lists: one value surrounded by
optional whitespace, nothing else. `none` is a `json.JSONDecodeError`. -/
def jsonParseL (l : List Char) : Option Json :=
  match parseVal (2 * l.length + 8) (jWsDrop l) with
  | some (j, rest) => if (jWsDrop rest).isEmpty then some j else none
  | none => none

/-- Embedding of `json.loads` on strings. -/
def jsonParse (s : String) : Option Json := jsonParseL s.data

/-- Step 4 of `extract_json_from_response`: every candidate produced by
the four patterns, in the order the `for pattern in patterns` /
`for match in matches` loops try them. -/
def allCandidates (cleaned : List Char) : List (List Char) :=
  scanFence fenceJsonTok (cleaned.length + 1) cleaned ++
    scanFence tickTok (cleaned.length + 1) cleaned ++
    greedyBraces cleaned ++
    lazyBraces (cleaned.length + 1) cleaned

/-- First candidate that `json.loads` accepts, the `return match` of the
step 4 loop. -/
def firstHit : List (List Char) → Option (List Char)
  | [] => none
  | c :: rest => if (jsonParseL c).isSome then some c else firstHit rest

/-- Embedding of `extract_json_from_response` (test_model.py, lines
229-283) on character lists: preamble stripping and leading-noise trim
(`cleanedText`), direct parse, the four fence/brace patterns, the
first-to-last-brace slice, and the final `return cleaned` when
everything failed. -/
def extractL (content : List Char) : List Char :=
  if (jsonParseL (cleanedText content)).isSome then cleanedText content
  else
    match firstHit (allCandidates (cleanedText content)) with
    | some m => m
    | none =>
      match braceSlice (cleanedText content) with
      | some cand => if (jsonParseL cand).isSome then cand else cleanedText content
      | none => cleanedText content

/-- Embedding of `extract_json_from_response` on strings. -/
def extract_json_from_response (content : String) : String :=
  String.mk (extractL content.data)

/-- Outcome of the response-handling tail of `call_ollama`: either the
parsed JSON value handed back to the caller, or the `RuntimeError`
`"Model returned non-JSON content. Attempted to parse: ..."` carrying the
first 200 characters of the text it tried to parse. -/
inductive CallResult where
  | ok (j : Json)
  | nonJson (snippet : String)

/-- Embedding of `call_ollama` after the HTTP response delivered the
message content (test_model.py, lines 330-351): run the extractor, try
`json.loads`, on failure retry the slice between the first left brace
and the last right brace, and otherwise raise carrying
`json_text[:200]`. -/
def call_ollama_result (content : String) : CallResult :=
  match jsonParse (extract_json_from_response content) with
  | some j => .ok j
  | none =>
    match braceSlice (extract_json_from_response content).data with
    | some cand =>
      match jsonParseL cand with
      | some j => .ok j
      | none => .nonJson (String.mk ((extract_json_from_response content).data.take 200))
    | none => .nonJson (String.mk ((extract_json_from_response content).data.take 200))

/-- Ordering on exact JSON numbers (`a.mantissa * 10^a.exp10 ≤ ...`),
computed at a common power of ten. -/
def jnumLe (a b : JNum) : Bool :=
  let m := min a.exp10 b.exp10
  decide (a.mantissa * (10 : Int) ^ (a.exp10 - m).toNat ≤
    b.mantissa * (10 : Int) ^ (b.exp10 - m).toNat)

/-- JSON Schema check `{"type": "number", "minimum": 0.0, "maximum": 1.0}`. -/
def unitNum : Json → Bool
  | .num n => jnumLe ⟨0, 0⟩ n && jnumLe n ⟨1, 0⟩
  | _ => false

/-- JSON Schema check `{"type": "string"}`. -/
def isJStr : Json → Bool
  | .str _ => true
  | _ => false

/-- The five required score fields of `_analysis_schema()`. -/
def scoreKeys : List String :=
  ["impact_size", "time_proximity", "clarity", "volatility_sensitivity", "duration"]

/-- The seven required top-level fields of `_analysis_schema()`. -/
def topKeys : List String :=
  ["industry", "company", "symbol", "direction", "confidence", "reason", "scores"]

/-- Validity of a value against the `scores` sub-schema of
`_analysis_schema()`: an object, all five score fields present and
numbers in `[0, 1]`, and (`additionalProperties: false`) no other key. -/
def scoresValid : Json → Bool
  | .obj kvs =>
    (scoreKeys.all fun k =>
      match kvs.lookup k with
      | some v => unitNum v
      | none => false) &&
    (kvs.all fun kv => scoreKeys.contains kv.1)
  | _ => false

/-- Validity of a value against `_analysis_schema()` (test_model.py,
lines 184-224), read under JSON Schema semantics: all seven fields
required and typed, `direction` in the `buy`/`sell`/`hold` enum,
`confidence` a number in `[0, 1]`, `scores` per `scoresValid`, and no
additional top-level key. The source builds this schema only to ship it
to the backend in the request's `format` field; no Python code ever
evaluates it against a response, which is what the claims about
client-side validation are measured against. -/
def analysisResultValid : Json → Bool
  | .obj kvs =>
    (match kvs.lookup "industry" with | some v => isJStr v | none => false) &&
    (match kvs.lookup "company" with | some v => isJStr v | none => false) &&
    (match kvs.lookup "symbol" with | some v => isJStr v | none => false) &&
    (match kvs.lookup "direction" with
      | some (.str d) => ["buy", "sell", "hold"].contains d
      | _ => false) &&
    (match kvs.lookup "confidence" with | some v => unitNum v | none => false) &&
    (match kvs.lookup "reason" with | some v => isJStr v | none => false) &&
    (match kvs.lookup "scores" with | some v => scoresValid v | none => false) &&
    (kvs.all fun kv => topKeys.contains kv.1)
  | _ => false

/-- Validity of a raw string against the analysis schema: it parses as
JSON and the parsed value satisfies `_analysis_schema()`. -/
def schemaOkStr (s : String) : Bool :=
  match jsonParse s with
  | some j => analysisResultValid j
  | none => false

/-- Case-sensitive substring test, the semantics of Python's
`k in ml` for a non-empty `k`. -/
def containsSub (pat : List Char) : List Char → Bool
  | [] => pat.isEmpty
  | c :: cs => begins pat (c :: cs) || containsSub pat cs

/-- Python `str.lower()` (ASCII model; model identifiers are ASCII). -/
def lowerStr (s : String) : String := String.mk (s.data.map Char.toLower)

/-- The substring allowlist of `call_ollama`:
`("gpt-oss", "deepseek", "r1")`. -/
def gptLikeKeys : List String := ["gpt-oss", "deepseek", "r1"]

/-- Embedding of `gpt_like = any(k in ml for k in (...))` with
`ml = model.lower()` (test_model.py, lines 295-296). -/
def isGptLike (model : String) : Bool :=
  gptLikeKeys.any fun k => containsSub k.data (lowerStr model).data

/-- The `format` field of the Ollama chat payload: either the loose
JSON-mode string `"json"` or a full schema object. -/
inductive OllamaFmt where
  | jsonMode
  | schemaFmt (schema : Json)

/-- The dictionary literal returned by `_analysis_schema()` as a JSON
value (the floats `0.0` and `1.0` denote the exact numbers 0 and 1). -/
def analysis_schema : Json :=
  let unitRange : List (String × Json) :=
    [("type", .str "number"), ("minimum", .num ⟨0, 0⟩), ("maximum", .num ⟨1, 0⟩)]
  .obj
    [("type", .str "object"),
     ("properties", .obj
       [("industry", .obj [("type", .str "string")]),
        ("company", .obj [("type", .str "string")]),
        ("symbol", .obj [("type", .str "string")]),
        ("direction", .obj
          [("type", .str "string"),
           ("enum", .arr [.str "buy", .str "sell", .str "hold"])]),
        ("confidence", .obj unitRange),
        ("reason", .obj [("type", .str "string")]),
        ("scores", .obj
          [("type", .str "object"),
           ("properties", .obj
             [("impact_size", .obj unitRange),
              ("time_proximity", .obj unitRange),
              ("clarity", .obj unitRange),
              ("volatility_sensitivity", .obj unitRange),
              ("duration", .obj unitRange)]),
           ("required", .arr (scoreKeys.map .str)),
           ("additionalProperties", .bool false)])]),
     ("required", .arr (topKeys.map .str)),
     ("additionalProperties", .bool false)]

/-- Embedding of `fmt = "json" if gpt_like else _analysis_schema()`
(test_model.py, line 297): the format constraint `call_ollama` puts in
its request payload. -/
def fmtFor (model : String) : OllamaFmt :=
  if isGptLike model then .jsonMode else .schemaFmt analysis_schema

/-- One entry of the model-listing response body: its `"id"` and
`"name"` fields when present. -/
structure ApiEntry where
  idField : Option String
  nameField : Option String

/-- Python truthiness on an optional string: a missing field and an
empty string are both falsy. -/
def truthyStr : Option String → Option String
  | some s => if s.data.isEmpty then none else some s
  | none => none

/-- Name extraction of `_list_models_via_api` in the Ollama clients:
`name = it.get("name"); if name: names.append(name)`. -/
def pickNameOllama (e : ApiEntry) : Option String := truthyStr e.nameField

/-- Name extraction of `_list_models_via_api` in test_gpt.py:
`name = it.get("id") or it.get("name"); if name: names.append(name)`. -/
def pickNameDmr (e : ApiEntry) : Option String :=
  match truthyStr e.idField with
  | some s => some s
  | none => truthyStr e.nameField

/-- Embedding of Python `sorted(set(names))`: the distinct names in
ascending lexicographic order (Lean's `String` order is lexicographic by
code point, as Python's). -/
def sortDedup (l : List String) : List String :=
  List.insertionSort (· ≤ ·) l.dedup

/-- Outcome of the primary model-listing HTTP query. `failure` stands
for every path the source's `except Exception: return []` absorbs:
network error, timeout, non-200 status (`raise_for_status`), and a body
that is not a JSON object with a well-formed entry list. -/
inductive ApiOutcome where
  | failure
  | entries (es : List ApiEntry)

/-- Embedding of `_list_models_via_api` (test_ollama.py lines 104-118,
test_model.py lines 98-112). -/
def list_models_via_api_ollama : ApiOutcome → List String
  | .failure => []
  | .entries es => sortDedup (es.filterMap pickNameOllama)

/-- Embedding of `_list_models_via_api` (test_gpt.py lines 95-109). -/
def list_models_via_api_dmr : ApiOutcome → List String
  | .failure => []
  | .entries es => sortDedup (es.filterMap pickNameDmr)

/-- Splitter of Python `str.splitlines()` (ASCII line endings `\n`,
`\r`, `\r\n`; no trailing empty line). `cur` is the current line,
reversed. -/
def splitlinesGo : List Char → List Char → List (List Char)
  | cur, [] => [cur.reverse]
  | cur, '\r' :: '\n' :: r => cur.reverse :: (if r.isEmpty then [] else splitlinesGo [] r)
  | cur, '\r' :: cs => cur.reverse :: (if cs.isEmpty then [] else splitlinesGo [] cs)
  | cur, '\n' :: cs => cur.reverse :: (if cs.isEmpty then [] else splitlinesGo [] cs)
  | cur, c :: cs => splitlinesGo (c :: cur) cs

/-- Python `out.splitlines()`. -/
def splitlinesPy (s : String) : List String :=
  match s.data with
  | [] => []
  | l => (splitlinesGo [] l).map String.mk

/-- Splitter of Python `str.split()` with no arguments: maximal runs of
non-whitespace, edge whitespace ignored (which also absorbs the
source's redundant `.strip()` before it). `cur` is the current token,
reversed. -/
def pyWordsGo : List Char → List Char → List (List Char)
  | cur, [] => if cur.isEmpty then [] else [cur.reverse]
  | cur, c :: cs =>
    if pyIsSpace c then
      if cur.isEmpty then pyWordsGo [] cs else cur.reverse :: pyWordsGo [] cs
    else pyWordsGo (c :: cur) cs

/-- First whitespace-delimited token of a line: `tok[0]` after
`tok = line.strip().split()`, when `tok` is non-empty. -/
def firstTok (line : String) : Option String :=
  ((pyWordsGo [] line.data).head?).map String.mk

/-- Embedding of the loop body of `_list_models_via_cli` in the Ollama
clients (test_ollama.py lines 120-131, test_model.py lines 114-125):
the first token of a line is kept when it contains a colon. -/
def cliKeepOllama (line : String) : Option String :=
  match firstTok line with
  | some t => if t.data.contains ':' then some t else none
  | none => none

/-- Embedding of the loop body of `_list_models_via_cli` in test_gpt.py
(lines 111-123): the first token is kept when it contains a slash or a
colon. -/
def cliKeepDmr (line : String) : Option String :=
  match firstTok line with
  | some t => if t.data.contains '/' || t.data.contains ':' then some t else none
  | none => none

/-- Embedding of `_list_models_via_cli` on the captured stdout of
`ollama list`. -/
def list_models_via_cli_ollama (out : String) : List String :=
  sortDedup ((splitlinesPy out).filterMap cliKeepOllama)

/-- Embedding of `_list_models_via_cli` on the captured stdout of
`docker model list`. -/
def list_models_via_cli_dmr (out : String) : List String :=
  sortDedup ((splitlinesPy out).filterMap cliKeepDmr)

/-- Outcome of the fallback listing command. `failure` stands for every
path of `except Exception: return []` (command missing, non-zero exit,
timeout). -/
inductive CliOutcome where
  | failure
  | output (stdout : String)

/-- Fallback tier of the Ollama clients as a function of the command
outcome. -/
def cli_models_ollama : CliOutcome → List String
  | .failure => []
  | .output out => list_models_via_cli_ollama out

/-- Fallback tier of test_gpt.py as a function of the command outcome. -/
def cli_models_dmr : CliOutcome → List String
  | .failure => []
  | .output out => list_models_via_cli_dmr out

/-- Embedding of `get_installed_models` /
`models = _list_models_via_api(api_base) or _list_models_via_cli()`:
Python `or` on lists falls through exactly when the left list is
empty. -/
def get_installed_models (api : ApiOutcome) (cli : CliOutcome) : List String :=
  let m := list_models_via_api_ollama api
  if m.isEmpty then cli_models_ollama cli else m

/-- Embedding of the discovery sequence of `choose_model_interactive` in
test_gpt.py (lines 126-128). -/
def get_installed_models_dmr (api : ApiOutcome) (cli : CliOutcome) : List String :=
  let m := list_models_via_api_dmr api
  if m.isEmpty then cli_models_dmr cli else m

/-- Embedding of the candidate ordering of `choose_model_interactive`
(test_ollama.py lines 142-144, test_gpt.py lines 134-136):
`pref = [m for m in preferred if m in models]`,
`rest = [m for m in models if m not in pref]`, `candidates = pref + rest`. -/
def choose_candidates (models preferred : List String) : List String :=
  let pref := preferred.filter fun m => models.contains m
  let rest := models.filter fun m => !(pref.contains m)
  pref ++ rest

/-- Python `str.strip()`. -/
def pyStrip (s : String) : String :=
  String.mk (((s.data.dropWhile pyIsSpace).reverse.dropWhile pyIsSpace).reverse)

/-- Python `str.isdigit()` (ASCII model): non-empty and all digits. -/
def isPyDigitStr (s : String) : Bool :=
  !s.data.isEmpty && s.data.all Char.isDigit

/-- Outcome of one iteration of the selection loop of
`choose_model_interactive` in test_ollama.py / test_gpt.py: a chosen
model, or `again` for the `"Invalid selection. Try again."` path. -/
inductive SimpleSel where
  | ret (m : String)
  | again

/-- Embedding of one iteration of the selection loop of
`choose_model_interactive` (test_ollama.py lines 150-158, test_gpt.py
lines 142-150). The caller guarantees `candidates` non-empty (the
function exits earlier otherwise), so the `candidates[0]` default of the
`getD` is never read. -/
def choose_step_simple (candidates : List String) (sel : String) : SimpleSel :=
  let sel := pyStrip sel
  if sel.data.isEmpty then .ret (candidates.headD "")
  else if isPyDigitStr sel then
    let idx := digitsNat sel.data
    if 1 ≤ idx && idx ≤ candidates.length then .ret (candidates.getD (idx - 1) "")
    else .again
  else .again

/-- The selection loop over a queue of user inputs; `none` when the
queue is exhausted while the loop would keep prompting. -/
def choose_loop_simple (candidates : List String) : List String → Option String
  | [] => none
  | i :: rest =>
    match choose_step_simple candidates i with
    | .ret m => some m
    | .again => choose_loop_simple candidates rest

/-- Outcome of one iteration of the selection loop of
`choose_model_interactive` in test_model.py: a chosen model, process
exit on `"q"`, or `again`. -/
inductive ModelSel where
  | ret (m : String)
  | quit
  | again

/-- Embedding of one iteration of the selection loop of
`choose_model_interactive` (test_model.py lines 144-160):
`sel = input(...).strip().lower()`; `"q"` exits; blank returns the
default model when installed and otherwise the first entry; a digit in
`1..len(models)` returns that entry; *any* other text equal to a catalog
entry is returned as-is; everything else re-prompts. -/
def choose_step_model (models : List String) (defaultModel : String) (sel : String) : ModelSel :=
  let sel := lowerStr (pyStrip sel)
  if sel == "q" then .quit
  else if sel.data.isEmpty then
    if models.contains defaultModel then .ret defaultModel else .ret (models.headD "")
  else if isPyDigitStr sel then
    let idx := digitsNat sel.data
    if 1 ≤ idx && idx ≤ models.length then .ret (models.getD (idx - 1) "")
    else if models.contains sel then .ret sel
    else .again
  else if models.contains sel then .ret sel
  else .again

/-- The test_model.py selection loop over a queue of user inputs;
`none` when the user quits or the queue runs out. -/
def choose_loop_model (models : List String) (defaultModel : String) : List String → Option String
  | [] => none
  | i :: rest =>
    match choose_step_model models defaultModel i with
    | .ret m => some m
    | .quit => none
    | .again => choose_loop_model models defaultModel rest

/-! ## General lemmas about the embedded primitives -/

theorem begins_iff {pat l : List Char} : begins pat l = true ↔ pat <+: l := by
  induction pat generalizing l with
  | nil => simp [begins]
  | cons p ps ih =>
    cases l with
    | nil => simp [begins]
    | cons c cs => simp [begins, List.cons_prefix_cons, ih, and_comm]

theorem containsSub_iff {pat l : List Char} : containsSub pat l = true ↔ pat <:+: l := by
  induction l with
  | nil => simp [containsSub, List.infix_nil, List.isEmpty_iff]
  | cons c cs ih => simp [containsSub, List.infix_cons_iff, ih, begins_iff]

theorem sortDedup_sorted (l : List String) : (sortDedup l).Sorted (· ≤ ·) :=
  List.sorted_insertionSort _ _

theorem sortDedup_nodup (l : List String) : (sortDedup l).Nodup :=
  (List.perm_insertionSort _ _).nodup_iff.mpr l.nodup_dedup

theorem mem_sortDedup {x : String} {l : List String} : x ∈ sortDedup l ↔ x ∈ l :=
  ((List.perm_insertionSort _ _).mem_iff).trans (List.mem_dedup)

/-! ## ModelSelector ordering (claim C6) -/

theorem choose_candidates_eq (models preferred : List String) :
    choose_candidates models preferred =
      preferred.filter (fun m => models.contains m) ++
        models.filter (fun m => !(preferred.contains m)) := by
  have h1 : choose_candidates models preferred =
      preferred.filter (fun m => models.contains m) ++
        models.filter (fun m => !((preferred.filter (fun m => models.contains m)).contains m)) := rfl
  rw [h1]
  congr 1
  apply List.filter_congr
  intro m hm
  have : ((preferred.filter (fun m => models.contains m)).contains m)
      = preferred.contains m := by
    simp only [List.elem_eq_mem, List.mem_filter, decide_eq_true_eq]
    simp [hm]
  rw [this]

/-- Claim C6: `choose_model_interactive` displays the catalog entries that
appear in the preferred tuple first, in the preferred tuple's order, then
the remaining catalog entries in their existing order; blank input picks
the first candidate; in particular `preferred = ["b","a"]` against
`catalog = ["a","b","c"]` displays `["b","a","c"]` and blank input
returns `"b"`. -/
theorem c6_selector_ordering :
    (∀ models preferred : List String,
      choose_candidates models preferred =
        preferred.filter (fun m => models.contains m) ++
          models.filter (fun m => !(preferred.contains m))) ∧
    (∀ candidates : List String,
      choose_step_simple candidates "" = .ret (candidates.headD "")) ∧
    choose_candidates ["a", "b", "c"] ["b", "a"] = ["b", "a", "c"] ∧
    choose_step_simple (choose_candidates ["a", "b", "c"] ["b", "a"]) "" = .ret "b" :=
  ⟨choose_candidates_eq, fun _ => rfl, rfl, rfl⟩

/-! ## BackendPolicy format classification (claim C7) -/

/-- Claim C7: `call_ollama` requests the loose `"json"` format exactly
when the lowercased model identifier contains `"gpt-oss"`, `"deepseek"`
or `"r1"` as a substring, and otherwise attaches the full analysis
schema as the `format` constraint; in particular a `deepseek` identifier
gets JSON mode and `qwen2.5:7b` gets the schema. -/
theorem c7_backend_format :
    (∀ model : String,
      (fmtFor model = .jsonMode ↔
        "gpt-oss".data <:+: (lowerStr model).data ∨
          "deepseek".data <:+: (lowerStr model).data ∨
          "r1".data <:+: (lowerStr model).data) ∧
      (fmtFor model = .jsonMode ∨ fmtFor model = .schemaFmt analysis_schema)) ∧
    fmtFor "deepseek-r1:7b" = .jsonMode ∧
    fmtFor "my-Deepseek-7B" = .jsonMode ∧
    fmtFor "qwen2.5:7b" = .schemaFmt analysis_schema := by
  refine ⟨fun model => ⟨?_, ?_⟩, rfl, rfl, rfl⟩
  · have hlike : isGptLike model = true ↔
        "gpt-oss".data <:+: (lowerStr model).data ∨
          "deepseek".data <:+: (lowerStr model).data ∨
          "r1".data <:+: (lowerStr model).data := by
      simp [isGptLike, gptLikeKeys, containsSub_iff]
    by_cases h : isGptLike model = true
    · simp only [fmtFor, h, if_true]
      simpa using hlike.mp h
    · simp only [fmtFor, h, if_false, Bool.not_eq_true] at *
      simp only [fmtFor, h, Bool.false_eq_true, if_false]
      constructor
      · intro hc
        exact absurd hc (by simp)
      · intro hc
        exact absurd (hlike.mpr hc) (by simp [h])
  · by_cases h : isGptLike model = true
    · exact Or.inl (by simp [fmtFor, h])
    · exact Or.inr (by simp [fmtFor, h])

/-! ## ModelDiscovery (claims C8 and C9) -/

theorem cliKeepOllama_eq_some {line x : String} :
    cliKeepOllama line = some x ↔ firstTok line = some x ∧ x.data.contains ':' = true := by
  unfold cliKeepOllama
  cases h : firstTok line with
  | none => simp
  | some t =>
    by_cases hc : t.data.contains ':' = true
    · simp only [hc, if_true, Option.some.injEq]
      constructor
      · rintro rfl
        exact ⟨rfl, hc⟩
      · rintro ⟨ht, _⟩
        exact ht
    · simp only [hc, if_false]
      constructor
      · rintro ⟨⟩
      · rintro ⟨ht, hx⟩
        cases ht
        exact absurd hx hc

theorem cliKeepDmr_eq_some {line x : String} :
    cliKeepDmr line = some x ↔
      firstTok line = some x ∧ (x.data.contains '/' = true ∨ x.data.contains ':' = true) := by
  unfold cliKeepDmr
  cases h : firstTok line with
  | none => simp
  | some t =>
    by_cases hc : (t.data.contains '/' || t.data.contains ':') = true
    · simp only [hc, if_true, Option.some.injEq]
      constructor
      · rintro rfl
        exact ⟨rfl, by simpa using hc⟩
      · rintro ⟨ht, _⟩
        exact ht
    · simp only [hc, if_false]
      constructor
      · rintro ⟨⟩
      · rintro ⟨ht, hx⟩
        cases ht
        exact absurd (by simpa using hx) hc

/-- Claim C9, counterexample: the Ollama clients' fallback CLI parser
drops a first token that contains a slash but no colon (here the line
`ai/gpt-oss 20b` of a `docker`-style listing), while the claim says any
first token containing `/` or `:` is kept; only the test_gpt.py variant
keeps it. -/
theorem c9_counterexample :
    firstTok "ai/gpt-oss 20b" = some "ai/gpt-oss" ∧
    "ai/gpt-oss".data.contains '/' = true ∧
    cliKeepOllama "ai/gpt-oss 20b" = none ∧
    list_models_via_cli_ollama "ai/gpt-oss 20b" = [] ∧
    list_models_via_cli_dmr "ai/gpt-oss 20b" = ["ai/gpt-oss"] :=
  ⟨rfl, rfl, rfl, rfl, rfl⟩

/-- Claim C9 as amended: in every fallback CLI enumeration a line's
first whitespace-delimited token is kept iff it contains `:` (Ollama
clients, `test_ollama.py` / `test_model.py`) respectively iff it
contains `/` or `:` (`test_gpt.py`); kept tokens are deduplicated and
sorted lexicographically. -/
theorem c9_cli_token_rule :
    (∀ (out : String) (x : String),
      x ∈ list_models_via_cli_ollama out ↔
        ∃ line ∈ splitlinesPy out, firstTok line = some x ∧ x.data.contains ':' = true) ∧
    (∀ (out : String) (x : String),
      x ∈ list_models_via_cli_dmr out ↔
        ∃ line ∈ splitlinesPy out,
          firstTok line = some x ∧ (x.data.contains '/' = true ∨ x.data.contains ':' = true)) ∧
    (∀ out : String,
      (list_models_via_cli_ollama out).Sorted (· ≤ ·) ∧
        (list_models_via_cli_ollama out).Nodup ∧
        (list_models_via_cli_dmr out).Sorted (· ≤ ·) ∧
        (list_models_via_cli_dmr out).Nodup) := by
  refine ⟨fun out x => ?_, fun out x => ?_, fun out =>
    ⟨sortDedup_sorted _, sortDedup_nodup _, sortDedup_sorted _, sortDedup_nodup _⟩⟩
  · rw [list_models_via_cli_ollama, mem_sortDedup, List.mem_filterMap]
    simp only [cliKeepOllama_eq_some]
  · rw [list_models_via_cli_dmr, mem_sortDedup, List.mem_filterMap]
    simp only [cliKeepDmr_eq_some]

/-- Claim C8: discovery is a total function of the query outcome (the
sources wrap both tiers in `except Exception: return []`), a failed or
malformed primary query yields the empty catalog, a successful one
yields the extracted names deduplicated by string equality and sorted
lexicographically (entries whose name field is missing — or empty, which
Python truthiness also discards — contribute nothing), and the CLI
fallback is consulted exactly when the primary tier's catalog is
empty. -/
theorem c8_discovery_total :
    (∀ (api : ApiOutcome) (cli : CliOutcome),
      get_installed_models api cli =
        if (list_models_via_api_ollama api).isEmpty then cli_models_ollama cli
        else list_models_via_api_ollama api) ∧
    list_models_via_api_ollama .failure = [] ∧
    list_models_via_api_dmr .failure = [] ∧
    cli_models_ollama .failure = [] ∧
    cli_models_dmr .failure = [] ∧
    (∀ (es : List ApiEntry) (x : String),
      x ∈ list_models_via_api_ollama (.entries es) ↔ ∃ e ∈ es, pickNameOllama e = some x) ∧
    (∀ (es : List ApiEntry) (x : String),
      x ∈ list_models_via_api_dmr (.entries es) ↔ ∃ e ∈ es, pickNameDmr e = some x) ∧
    (∀ es : List ApiEntry,
      (list_models_via_api_ollama (.entries es)).Sorted (· ≤ ·) ∧
        (list_models_via_api_ollama (.entries es)).Nodup ∧
        (list_models_via_api_dmr (.entries es)).Sorted (· ≤ ·) ∧
        (list_models_via_api_dmr (.entries es)).Nodup) ∧
    (∀ (api : ApiOutcome) (cli : CliOutcome),
      get_installed_models_dmr api cli =
        if (list_models_via_api_dmr api).isEmpty then cli_models_dmr cli
        else list_models_via_api_dmr api) := by
  refine ⟨fun _ _ => rfl, rfl, rfl, rfl, rfl, fun es x => ?_, fun es x => ?_,
    fun es => ⟨sortDedup_sorted _, sortDedup_nodup _, sortDedup_sorted _, sortDedup_nodup _⟩,
    fun _ _ => rfl⟩
  · rw [list_models_via_api_ollama, mem_sortDedup, List.mem_filterMap]
  · rw [list_models_via_api_dmr, mem_sortDedup, List.mem_filterMap]

/-! ## Interactive chooser (claim C10) -/

theorem choose_step_model_mem {m0 d sel m : String} {ms : List String}
    (h : choose_step_model (m0 :: ms) d sel = .ret m) : m ∈ m0 :: ms := by
  unfold choose_step_model at h
  by_cases hq : (lowerStr (pyStrip sel) == "q") = true
  · simp only [hq, if_true] at h
    cases h
  · simp only [hq, if_false, Bool.false_eq_true] at h
    by_cases hb : (lowerStr (pyStrip sel)).data.isEmpty = true
    · simp only [hb, if_true] at h
      by_cases hd : ((m0 :: ms).contains d) = true
      · simp only [hd, if_true] at h
        cases h
        exact List.elem_iff.mp hd
      · simp only [hd, if_false, Bool.false_eq_true] at h
        cases h
        exact List.mem_cons_self _ _
    · simp only [hb, if_false, Bool.false_eq_true] at h
      by_cases hg : isPyDigitStr (lowerStr (pyStrip sel)) = true
      · simp only [hg, if_true] at h
        by_cases hr : (1 ≤ digitsNat (lowerStr (pyStrip sel)).data &&
            digitsNat (lowerStr (pyStrip sel)).data ≤ (m0 :: ms).length) = true
        · simp only [hr, if_true] at h
          cases h
          simp only [Bool.and_eq_true, decide_eq_true_eq] at hr
          have hlt : digitsNat (lowerStr (pyStrip sel)).data - 1 < (m0 :: ms).length := by
            simp only [List.length_cons] at hr ⊢
            omega
          rw [List.getD_eq_getElem _ _ hlt]
          exact List.getElem_mem hlt
        · simp only [hr, if_false, Bool.false_eq_true] at h
          by_cases hc : ((m0 :: ms).contains (lowerStr (pyStrip sel))) = true
          · simp only [hc, if_true] at h
            cases h
            exact List.elem_iff.mp hc
          · simp only [hc, if_false, Bool.false_eq_true] at h
            cases h
      · simp only [hg, if_false, Bool.false_eq_true] at h
        by_cases hc : ((m0 :: ms).contains (lowerStr (pyStrip sel))) = true
        · simp only [hc, if_true] at h
          cases h
          exact List.elem_iff.mp hc
        · simp only [hc, if_false, Bool.false_eq_true] at h
          cases h

theorem choose_loop_model_mem {m0 d m : String} {ms : List String} :
    ∀ {inputs : List String},
      choose_loop_model (m0 :: ms) d inputs = some m → m ∈ m0 :: ms := by
  intro inputs
  induction inputs with
  | nil =>
    intro h
    cases h
  | cons i rest ih =>
    intro h
    unfold choose_loop_model at h
    cases hstep : choose_step_model (m0 :: ms) d i with
    | ret x =>
      rw [hstep] at h
      cases h
      exact choose_step_model_mem hstep
    | quit =>
      rw [hstep] at h
      cases h
    | again =>
      rw [hstep] at h
      exact ih h

theorem choose_step_simple_mem {c0 sel m : String} {cs : List String}
    (h : choose_step_simple (c0 :: cs) sel = .ret m) : m ∈ c0 :: cs := by
  unfold choose_step_simple at h
  by_cases hb : (pyStrip sel).data.isEmpty = true
  · simp only [hb, if_true] at h
    cases h
    exact List.mem_cons_self _ _
  · simp only [hb, if_false, Bool.false_eq_true] at h
    by_cases hg : isPyDigitStr (pyStrip sel) = true
    · simp only [hg, if_true] at h
      by_cases hr : (1 ≤ digitsNat (pyStrip sel).data &&
          digitsNat (pyStrip sel).data ≤ (c0 :: cs).length) = true
      · simp only [hr, if_true] at h
        cases h
        simp only [Bool.and_eq_true, decide_eq_true_eq] at hr
        have hlt : digitsNat (pyStrip sel).data - 1 < (c0 :: cs).length := by
          simp only [List.length_cons] at hr ⊢
          omega
        rw [List.getD_eq_getElem _ _ hlt]
        exact List.getElem_mem hlt
      · simp only [hr, if_false, Bool.false_eq_true] at h
        cases h
    · simp only [hg, if_false, Bool.false_eq_true] at h
      cases h

theorem choose_loop_simple_mem {c0 m : String} {cs : List String} :
    ∀ {inputs : List String},
      choose_loop_simple (c0 :: cs) inputs = some m → m ∈ c0 :: cs := by
  intro inputs
  induction inputs with
  | nil =>
    intro h
    cases h
  | cons i rest ih =>
    intro h
    unfold choose_loop_simple at h
    cases hstep : choose_step_simple (c0 :: cs) i with
    | ret x =>
      rw [hstep] at h
      cases h
      exact choose_step_simple_mem hstep
    | again =>
      rw [hstep] at h
      exact ih h

/-- Claim C10, counterexample: in test_model.py the non-blank,
non-numeric input `"m:1"` (which the claim says is rejected and
re-prompted) is accepted and returned because it equals a catalog
entry. -/
theorem c10_counterexample :
    isPyDigitStr (lowerStr (pyStrip "m:1")) = false ∧
    (lowerStr (pyStrip "m:1")).data.isEmpty = false ∧
    lowerStr (pyStrip "m:1") ≠ "q" ∧
    choose_step_model ["m:1"] "llama3" "m:1" = .ret "m:1" :=
  ⟨rfl, rfl, by decide, rfl⟩

/-- Claim C10 as amended: every variant of `choose_model_interactive`
only ever returns a member of the supplied catalog. Blank input returns
the first candidate (test_ollama.py / test_gpt.py) or the installed
default when present (test_model.py); a numeric selection is accepted
when it lies in `1..N`; in test_ollama.py / test_gpt.py every other
input re-prompts, while test_model.py additionally quits on `"q"` and
accepts any other input that equals a catalog entry after stripping and
lowercasing, re-prompting otherwise. -/
theorem c10_chooser_returns_member :
    (∀ (m0 d m : String) (ms inputs : List String),
      choose_loop_model (m0 :: ms) d inputs = some m → m ∈ m0 :: ms) ∧
    (∀ (c0 m : String) (cs inputs : List String),
      choose_loop_simple (c0 :: cs) inputs = some m → m ∈ c0 :: cs) ∧
    (∀ (c0 : String) (cs : List String), choose_step_simple (c0 :: cs) "" = .ret c0) ∧
    (∀ (m0 d : String) (ms : List String),
      choose_step_model (m0 :: ms) d "" =
        if (m0 :: ms).contains d then .ret d else .ret m0) ∧
    (∀ (candidates : List String) (sel : String),
      (pyStrip sel).data.isEmpty = false →
      isPyDigitStr (pyStrip sel) = false →
      choose_step_simple candidates sel = .again) ∧
    (∀ (candidates : List String) (sel : String),
      isPyDigitStr (pyStrip sel) = true →
      1 ≤ digitsNat (pyStrip sel).data →
      digitsNat (pyStrip sel).data ≤ candidates.length →
      choose_step_simple candidates sel =
        .ret (candidates.getD (digitsNat (pyStrip sel).data - 1) "")) ∧
    (∀ (models : List String) (d sel : String),
      lowerStr (pyStrip sel) ≠ "q" →
      (lowerStr (pyStrip sel)).data.isEmpty = false →
      isPyDigitStr (lowerStr (pyStrip sel)) = false →
      choose_step_model models d sel =
        if models.contains (lowerStr (pyStrip sel)) then .ret (lowerStr (pyStrip sel))
        else .again) := by
  refine ⟨fun _ _ _ _ _ => choose_loop_model_mem,
    fun _ _ _ _ => choose_loop_simple_mem,
    fun _ _ => rfl, fun m0 d ms => ?_, fun candidates sel hne hdig => ?_,
    fun candidates sel hdig h1 h2 => ?_, fun models d sel hq hne hdig => ?_⟩
  · have h1 : (lowerStr (pyStrip "") == "q") = false := rfl
    have h2 : (lowerStr (pyStrip "")).data.isEmpty = true := rfl
    by_cases hd : ((m0 :: ms).contains d) = true
    · simp [choose_step_model, h1, h2, hd]
    · simp only [Bool.not_eq_true] at hd
      simp [choose_step_model, h1, h2, hd]
  · simp [choose_step_simple, hne, hdig]
  · have hne : (pyStrip sel).data.isEmpty = false := by
      unfold isPyDigitStr at hdig
      simp only [Bool.and_eq_true, Bool.not_eq_true'] at hdig
      exact hdig.1
    have hr : (1 ≤ digitsNat (pyStrip sel).data &&
        digitsNat (pyStrip sel).data ≤ candidates.length) = true := by
      simp only [Bool.and_eq_true, decide_eq_true_eq]
      exact ⟨h1, h2⟩
    simp [choose_step_simple, hne, hdig, hr]
  · have hq' : (lowerStr (pyStrip sel) == "q") = false := by
      simpa using hq
    simp [choose_step_model, hq', hne, hdig]

/-! ## ResponseExtractor and orchestration (claims C1 to C5) -/

theorem firstHit_isSome : ∀ {cands : List (List Char)} {c : List Char},
    firstHit cands = some c → (jsonParseL c).isSome = true := by
  intro cands
  induction cands with
  | nil =>
    intro c h
    cases h
  | cons a rest ih =>
    intro c h
    unfold firstHit at h
    by_cases hp : (jsonParseL a).isSome = true
    · simp only [hp, if_true] at h
      cases h
      exact hp
    · simp only [hp, if_false, Bool.false_eq_true] at h
      exact ih h

theorem strDataAppend (s t : String) : (s ++ t).data = s.data ++ t.data := rfl

theorem extract_data (content : String) :
    (extract_json_from_response content).data = extractL content.data := rfl

theorem extractL_cases (l : List Char) :
    (jsonParseL (extractL l)).isSome = true ∨
      (extractL l = cleanedText l ∧
        (jsonParseL (cleanedText l)).isSome = false ∧
        (∀ cand, braceSlice (cleanedText l) = some cand →
          (jsonParseL cand).isSome = false)) := by
  unfold extractL
  by_cases h1 : (jsonParseL (cleanedText l)).isSome = true
  · rw [if_pos h1]
    exact Or.inl h1
  · rw [if_neg h1]
    cases hf : firstHit (allCandidates (cleanedText l)) with
    | some m =>
      dsimp only
      exact Or.inl (firstHit_isSome hf)
    | none =>
      dsimp only
      cases hb : braceSlice (cleanedText l) with
      | some cand =>
        dsimp only
        by_cases hc : (jsonParseL cand).isSome = true
        · rw [if_pos hc]
          exact Or.inl hc
        · rw [if_neg hc]
          refine Or.inr ⟨rfl, by simpa using h1, fun cand2 hb2 => ?_⟩
          cases hb2
          simpa using hc
      | none =>
        dsimp only
        refine Or.inr ⟨rfl, by simpa using h1, fun cand2 hb2 => ?_⟩
        cases hb2

theorem extractL_giveup {l : List Char}
    (h : (jsonParseL (extractL l)).isSome = false) : extractL l = cleanedText l := by
  rcases extractL_cases l with hs | ⟨he, _, _⟩
  · exact absurd hs (by simp [h])
  · exact he

theorem extractL_giveup_brace {l : List Char} {cand : List Char}
    (h : (jsonParseL (extractL l)).isSome = false)
    (hb : braceSlice (cleanedText l) = some cand) : (jsonParseL cand).isSome = false := by
  rcases extractL_cases l with hs | ⟨_, _, hball⟩
  · exact absurd hs (by simp [h])
  · exact hball cand hb

/-- Claim C2, counterexample: on `"thinking...oops"` every strategy
fails, yet `extract_json_from_response` returns the cleaned text
`"oops"` — text it has not parsed as JSON — rather than reporting a
failure, and the `RuntimeError` that `call_ollama` then raises carries
`"oops"`, which is neither the original raw text nor a prefix of it. -/
theorem c2_counterexample :
    extract_json_from_response "thinking...oops" = "oops" ∧
    (jsonParse "oops").isSome = false ∧
    call_ollama_result "thinking...oops" = .nonJson "oops" ∧
    begins "oops".data "thinking...oops".data = false ∧
    "oops" ≠ "thinking...oops" :=
  ⟨rfl, rfl, rfl, rfl, by decide⟩

/-- Claim C2 as amended: when every strategy fails (equivalently, when
the extractor's return value does not parse), `extract_json_from_response`
returns the *cleaned* text — the raw text with thinking markers deleted
and everything before the first brace dropped — unparsed; the typed
failure is then raised by `call_ollama`, carrying the first 200
characters of that cleaned text (not of the original raw text). -/
theorem c2_exhausted_failure (content : String)
    (h : (jsonParse (extract_json_from_response content)).isSome = false) :
    extract_json_from_response content = String.mk (cleanedText content.data) ∧
    call_ollama_result content =
      .nonJson (String.mk ((cleanedText content.data).take 200)) := by
  have hL : (jsonParseL (extractL content.data)).isSome = false := h
  have hgive : extractL content.data = cleanedText content.data := extractL_giveup hL
  constructor
  · show String.mk (extractL content.data) = String.mk (cleanedText content.data)
    rw [hgive]
  · have hnone : jsonParse (extract_json_from_response content) = none := by
      cases hj : jsonParse (extract_json_from_response content) with
      | none => rfl
      | some j =>
        rw [hj] at h
        cases h
    unfold call_ollama_result
    rw [hnone, extract_data, hgive]
    cases hb : braceSlice (cleanedText content.data) with
    | some cand =>
      have hcand := extractL_giveup_brace hL hb
      have hcnone : jsonParseL cand = none := by
        cases hj : jsonParseL cand with
        | none => rfl
        | some j =>
          rw [hj] at hcand
          cases hcand
      dsimp only
      rw [hcnone]
    | none => rfl

/-- Claim C1, counterexample: the backend content
`'{"direction":"fly","confidence":5}'` (braces elided here) violates the
analysis schema in three ways — five of the seven required fields are
missing, `direction` is outside the enum, `confidence` is out of range —
yet `call_ollama` hands the parsed object to the caller; no
`SchemaViolation` failure exists anywhere in the client. -/
theorem c1_counterexample :
    call_ollama_result "\x7b\"direction\":\"fly\",\"confidence\":5\x7d" =
      .ok (.obj [("direction", .str "fly"), ("confidence", .num ⟨5, 0⟩)]) ∧
    analysisResultValid
      (.obj [("direction", .str "fly"), ("confidence", .num ⟨5, 0⟩)]) = false :=
  ⟨rfl, rfl⟩

/-- Claim C1 as amended: the client performs no client-side schema
validation. Whatever JSON value the extractor's output (or its
brace-sliced retry) parses to is returned to the caller as-is, schema
conformant or not; schema enforcement is only *requested* from the
backend through the payload's `format` field, and the sole client-side
failure after a 200 response is a JSON parse failure. -/
theorem c1_no_client_validation (content : String) (j : Json)
    (h : jsonParse (extract_json_from_response content) = some j) :
    call_ollama_result content = .ok j := by
  unfold call_ollama_result
  rw [h]

theorem c1_witness :
    call_ollama_result "\x7b\"a\":1\x7d" = .ok (.obj [("a", .num ⟨1, 0⟩)]) :=
  c1_no_client_validation "\x7b\"a\":1\x7d" (.obj [("a", .num ⟨1, 0⟩)]) rfl

theorem c2_witness :
    extract_json_from_response "thinking...oops" = String.mk (cleanedText "thinking...oops".data) ∧
    call_ollama_result "thinking...oops" =
      .nonJson (String.mk ((cleanedText "thinking...oops".data).take 200)) :=
  c2_exhausted_failure "thinking...oops" rfl

/-! ## Lemmas about the cleaning passes (for claims C3, C4, C5) -/

theorem cleanThinkingGo_fuel :
    ∀ {f1 f2 : Nat} {l : List Char}, l.length < f1 → l.length < f2 →
      cleanThinkingGo f1 l = cleanThinkingGo f2 l := by
  intro f1
  induction f1 with
  | zero =>
    intro f2 l h1
    omega
  | succ f1 ih =>
    intro f2 l h1 h2
    cases f2 with
    | zero => omega
    | succ f2 =>
      cases l with
      | nil => rfl
      | cons c cs =>
        simp only [cleanThinkingGo]
        by_cases ht : ciStarts thinkTok (c :: cs) = true
        · simp only [ht, if_true]
          apply ih <;> (simp only [List.length_drop, List.length_cons] at * <;> omega)
        · simp only [ht, if_false, Bool.false_eq_true]
          by_cases hd : ciStarts doneTok (c :: cs) = true
          · simp only [hd, if_true]
            apply ih <;> (simp only [List.length_drop, List.length_cons] at * <;> omega)
          · simp only [hd, if_false, Bool.false_eq_true]
            congr 1
            apply ih <;> (simp only [List.length_cons] at * <;> omega)

theorem dropToBrace_sublist {l r : List Char} (h : dropToBrace l = some r) : r.Sublist l := by
  unfold dropToBrace at h
  split at h
  · cases h
    exact List.dropWhile_sublist _
  · cases h

theorem cleanRespondGo_fuel :
    ∀ {f1 f2 : Nat} {l : List Char}, l.length < f1 → l.length < f2 →
      cleanRespondGo f1 l = cleanRespondGo f2 l := by
  intro f1
  induction f1 with
  | zero =>
    intro f2 l h1
    omega
  | succ f1 ih =>
    intro f2 l h1 h2
    cases f2 with
    | zero => omega
    | succ f2 =>
      cases l with
      | nil => rfl
      | cons c cs =>
        simp only [cleanRespondGo]
        by_cases hr : ciStarts respondTok (c :: cs) = true
        · simp only [hr, if_true]
          cases hdb : dropToBrace ((c :: cs).drop 18) with
          | some rest =>
            dsimp only
            have hlen := (dropToBrace_sublist hdb).length_le
            apply ih <;> (simp only [List.length_drop, List.length_cons] at * <;> omega)
          | none =>
            dsimp only
            congr 1
            apply ih <;> (simp only [List.length_cons] at * <;> omega)
        · simp only [hr, if_false, Bool.false_eq_true]
          congr 1
          apply ih <;> (simp only [List.length_cons] at * <;> omega)

theorem mem_of_mem_cleanThinkingGo {a : Char} :
    ∀ {fuel : Nat} {l : List Char}, a ∈ cleanThinkingGo fuel l → a ∈ l := by
  intro fuel
  induction fuel with
  | zero =>
    intro l h
    exact h
  | succ fuel ih =>
    intro l h
    cases l with
    | nil => cases h
    | cons c cs =>
      simp only [cleanThinkingGo] at h
      by_cases ht : ciStarts thinkTok (c :: cs) = true
      · simp only [ht, if_true] at h
        exact (List.drop_sublist 11 (c :: cs)).subset (ih h)
      · simp only [ht, if_false, Bool.false_eq_true] at h
        by_cases hd : ciStarts doneTok (c :: cs) = true
        · simp only [hd, if_true] at h
          exact (List.drop_sublist 14 (c :: cs)).subset (ih h)
        · simp only [hd, if_false, Bool.false_eq_true] at h
          cases h with
          | head => exact List.mem_cons_self _ _
          | tail _ h => exact List.mem_cons_of_mem _ (ih h)

theorem mem_of_mem_cleanRespondGo {a : Char} :
    ∀ {fuel : Nat} {l : List Char}, a ∈ cleanRespondGo fuel l → a ∈ l := by
  intro fuel
  induction fuel with
  | zero =>
    intro l h
    exact h
  | succ fuel ih =>
    intro l h
    cases l with
    | nil => cases h
    | cons c cs =>
      simp only [cleanRespondGo] at h
      by_cases hr : ciStarts respondTok (c :: cs) = true
      · simp only [hr, if_true] at h
        cases hdb : dropToBrace ((c :: cs).drop 18) with
        | some rest =>
          rw [hdb] at h
          exact ((dropToBrace_sublist hdb).trans (List.drop_sublist 18 (c :: cs))).subset (ih h)
        | none =>
          rw [hdb] at h
          cases h with
          | head => exact List.mem_cons_self _ _
          | tail _ h => exact List.mem_cons_of_mem _ (ih h)
      · simp only [hr, if_false, Bool.false_eq_true] at h
        cases h with
        | head => exact List.mem_cons_self _ _
        | tail _ h => exact List.mem_cons_of_mem _ (ih h)

theorem mem_of_mem_cleanThinkingL {a : Char} {l : List Char}
    (h : a ∈ cleanThinkingL l) : a ∈ l :=
  mem_of_mem_cleanThinkingGo h

theorem mem_of_mem_cleanRespondL {a : Char} {l : List Char}
    (h : a ∈ cleanRespondL l) : a ∈ l :=
  mem_of_mem_cleanRespondGo h

theorem ciStarts_length : ∀ {pat l : List Char}, ciStarts pat l = true → pat.length ≤ l.length := by
  intro pat
  induction pat with
  | nil =>
    intro l _
    simp
  | cons p ps ih =>
    intro l h
    cases l with
    | nil => cases h
    | cons c cs =>
      simp only [ciStarts, Bool.and_eq_true] at h
      simpa using ih h.2

theorem ciStarts_append_brace {pat : List Char} (hpat : ∀ p ∈ pat, p ≠ lb) :
    ∀ {a b : List Char}, b.head? = some lb →
      ciStarts pat (a ++ b) = ciStarts pat a := by
  induction pat with
  | nil =>
    intro a b _
    rfl
  | cons p ps ih =>
    intro a b hb
    cases a with
    | nil =>
      cases b with
      | nil => cases hb
      | cons c cs =>
        cases hb
        have hp : (p == Char.toLower lb) = false := by
          have := hpat p (List.mem_cons_self _ _)
          simp only [beq_eq_false_iff_ne, ne_eq]
          simpa using this
        simp [ciStarts, hp]
    | cons c cs =>
      simp only [List.cons_append, ciStarts]
      congr 1
      exact ih (fun q hq => hpat q (List.mem_cons_of_mem _ hq)) hb

theorem ciStarts_self_append {pat : List Char} (hpat : ∀ p ∈ pat, p.toLower = p) :
    ∀ rest : List Char, ciStarts pat (pat ++ rest) = true := by
  induction pat with
  | nil =>
    intro rest
    rfl
  | cons p ps ih =>
    intro rest
    simp only [List.cons_append, ciStarts, Bool.and_eq_true]
    constructor
    · rw [hpat p (List.mem_cons_self _ _)]
      exact beq_self_eq_true p
    · exact ih (fun q hq => hpat q (List.mem_cons_of_mem _ hq)) rest

theorem cleanThinkingGo_append {b : List Char} (hb : b.head? = some lb) :
    ∀ (fuel : Nat) (a : List Char), (a ++ b).length < fuel →
      cleanThinkingGo fuel (a ++ b) = cleanThinkingGo fuel a ++ cleanThinkingL b := by
  intro fuel
  induction fuel with
  | zero =>
    intro a h
    omega
  | succ fuel ih =>
    intro a hlen
    cases a with
    | nil =>
      simp only [List.nil_append, cleanThinkingGo]
      exact cleanThinkingGo_fuel (by simpa using hlen) (by omega)
    | cons c cs =>
      have hthink : ∀ p ∈ thinkTok, p ≠ lb := by decide
      have hdone : ∀ p ∈ doneTok, p ≠ lb := by decide
      rw [List.cons_append]
      simp only [cleanThinkingGo]
      rw [show (c :: (cs ++ b)) = (c :: cs) ++ b from rfl]
      rw [ciStarts_append_brace hthink hb, ciStarts_append_brace hdone hb]
      by_cases ht : ciStarts thinkTok (c :: cs) = true
      · simp only [ht, if_true]
        have h11 : 11 ≤ (c :: cs).length := by
          have hx := ciStarts_length ht
          have hy : thinkTok.length = 11 := rfl
          omega
        rw [List.drop_append_of_le_length h11]
        apply ih
        simp only [List.length_append, List.length_drop, List.length_cons] at *
        omega
      · simp only [ht, if_false, Bool.false_eq_true]
        by_cases hd : ciStarts doneTok (c :: cs) = true
        · simp only [hd, if_true]
          have h14 : 14 ≤ (c :: cs).length := by
            have hx := ciStarts_length hd
            have hy : doneTok.length = 14 := rfl
            omega
          rw [List.drop_append_of_le_length h14]
          apply ih
          simp only [List.length_append, List.length_drop, List.length_cons] at *
          omega
        · simp only [hd, if_false, Bool.false_eq_true]
          rw [List.cons_append, ih cs (by simpa [List.length_append] using (by
            simp only [List.length_append, List.length_cons] at hlen
            omega : cs.length + b.length < fuel))]

theorem cleanThinkingL_append {a b : List Char} (hb : b.head? = some lb) :
    cleanThinkingL (a ++ b) = cleanThinkingL a ++ cleanThinkingL b := by
  unfold cleanThinkingL
  rw [cleanThinkingGo_append hb ((a ++ b).length + 1) a (by omega)]
  congr 1
  exact cleanThinkingGo_fuel (by simp [List.length_append]; omega) (by omega)

theorem mem_of_mem_respondScrub {a : Char} :
    ∀ {l : List Char}, a ∈ respondScrub l → a ∈ l := by
  intro l
  induction l with
  | nil =>
    intro h
    cases h
  | cons c cs ih =>
    intro h
    simp only [respondScrub] at h
    by_cases hr : ciStarts respondTok (c :: cs) = true
    · simp only [hr, if_true] at h
      cases h
    · simp only [hr, if_false, Bool.false_eq_true] at h
      cases h with
      | head => exact List.mem_cons_self _ _
      | tail _ h => exact List.mem_cons_of_mem _ (ih h)

theorem dropWhile_append_all {b : List Char} (hb : b.head? = some lb) :
    ∀ {x : List Char}, (∀ e ∈ x, e ≠ lb) →
      List.dropWhile (fun c => c != lb) (x ++ b) = b := by
  intro x
  induction x with
  | nil =>
    intro _
    cases b with
    | nil => cases hb
    | cons c cs =>
      cases hb
      simp [List.dropWhile_cons]
  | cons e x' ih =>
    intro hx
    have he : (e != lb) = true := by
      simpa using hx e (List.mem_cons_self _ _)
    simp only [List.cons_append, List.dropWhile_cons, he, if_true]
    exact ih (fun q hq => hx q (List.mem_cons_of_mem _ hq))

theorem dropToBrace_append_brace {x b : List Char} (hx : ∀ e ∈ x, e ≠ lb)
    (hb : b.head? = some lb) : dropToBrace (x ++ b) = some b := by
  have hcont : (x ++ b).contains lb = true := by
    cases b with
    | nil => cases hb
    | cons c cs =>
      cases hb
      simp
  unfold dropToBrace
  rw [if_pos hcont]
  rw [dropWhile_append_all hb hx]

theorem cleanRespondGo_append {b : List Char} (hb : b.head? = some lb) :
    ∀ (fuel : Nat) (a : List Char), (a ++ b).length < fuel → (∀ x ∈ a, x ≠ lb) →
      cleanRespondGo fuel (a ++ b) = respondScrub a ++ cleanRespondL b := by
  intro fuel
  induction fuel with
  | zero =>
    intro a h
    omega
  | succ fuel ih =>
    intro a hlen ha
    cases a with
    | nil =>
      simp only [List.nil_append, respondScrub]
      exact cleanRespondGo_fuel (by simpa using hlen) (by omega)
    | cons c cs =>
      have hresp : ∀ p ∈ respondTok, p ≠ lb := by decide
      rw [List.cons_append]
      simp only [cleanRespondGo, respondScrub]
      rw [show (c :: (cs ++ b)) = (c :: cs) ++ b from rfl]
      rw [ciStarts_append_brace hresp hb]
      by_cases hr : ciStarts respondTok (c :: cs) = true
      · simp only [hr, if_true]
        have h18 : 18 ≤ (c :: cs).length := by
          have hx := ciStarts_length hr
          have hy : respondTok.length = 18 := rfl
          omega
        rw [List.drop_append_of_le_length h18]
        rw [dropToBrace_append_brace (fun e he =>
          ha e ((List.drop_sublist 18 (c :: cs)).subset he)) hb]
        simp only [List.nil_append]
        apply cleanRespondGo_fuel
        · simp only [List.length_append, List.length_cons] at hlen
          omega
        · omega
      · simp only [hr, if_false, Bool.false_eq_true]
        rw [List.cons_append]
        congr 1
        apply ih
        · simp only [List.length_append, List.length_cons] at hlen ⊢
          omega
        · exact fun q hq => ha q (List.mem_cons_of_mem _ hq)

theorem cleanRespondL_append {a b : List Char} (hb : b.head? = some lb)
    (ha : ∀ x ∈ a, x ≠ lb) :
    cleanRespondL (a ++ b) = respondScrub a ++ cleanRespondL b := by
  unfold cleanRespondL
  rw [show cleanRespondGo ((a ++ b).length + 1) (a ++ b)
      = respondScrub a ++ cleanRespondL b from
    cleanRespondGo_append hb ((a ++ b).length + 1) a (by omega) ha]
  rfl

theorem firstIdx_append_brace {p q : List Char} (hp : ∀ x ∈ p, x ≠ lb)
    (hq : q.head? = some lb) :
    firstIdx (fun c => c == lb) (p ++ q) = some p.length := by
  induction p with
  | nil =>
    cases q with
    | nil => cases hq
    | cons c cs =>
      cases hq
      simp [firstIdx]
  | cons c ps ih =>
    have hc : (c == lb) = false := by
      simpa using hp c (List.mem_cons_self _ _)
    have ih' := ih (fun x hx => hp x (List.mem_cons_of_mem _ hx))
    simp only [List.cons_append, firstIdx, hc, if_false, Bool.false_eq_true]
    rw [show firstIdx (fun c => c == lb) (ps.append q) = some ps.length from ih']
    simp

theorem trimToBrace_append {p q : List Char} (hp : ∀ x ∈ p, x ≠ lb)
    (hq : q.head? = some lb) : trimToBrace (p ++ q) = q := by
  unfold trimToBrace
  rw [firstIdx_append_brace hp hq]
  dsimp only
  by_cases h : 0 < p.length
  · rw [if_pos h]
    exact List.drop_left _ _
  · have hp0 : p = [] := by
      cases p with
      | nil => rfl
      | cons c cs => simp at h
    subst hp0
    simp

theorem firstIdx_none {p : Char → Bool} :
    ∀ {l : List Char}, (∀ x ∈ l, p x = false) → firstIdx p l = none := by
  intro l
  induction l with
  | nil =>
    intro _
    rfl
  | cons c cs ih =>
    intro h
    simp only [firstIdx, h c (List.mem_cons_self _ _), if_false, Bool.false_eq_true]
    rw [ih (fun x hx => h x (List.mem_cons_of_mem _ hx))]
    rfl

theorem trimToBrace_no_brace {l : List Char} (h : ∀ x ∈ l, x ≠ lb) :
    trimToBrace l = l := by
  unfold trimToBrace
  rw [firstIdx_none (fun x hx => by simpa using h x hx)]

theorem braceSlice_no_brace {l : List Char} (h : ∀ x ∈ l, x ≠ lb) :
    braceSlice l = none := by
  unfold braceSlice
  rw [firstIdx_none (fun x hx => by simpa using h x hx)]

theorem trimToBrace_head {l : List Char} (h : l.head? = some lb) :
    trimToBrace l = l := by
  cases l with
  | nil => cases h
  | cons c cs =>
    cases h
    simp [trimToBrace, firstIdx]

theorem cleanThinkingL_thinkTok (rest : List Char) :
    cleanThinkingL (thinkTok ++ rest) = cleanThinkingL rest := by
  unfold cleanThinkingL
  have hl : (thinkTok ++ rest).length + 1 = (rest.length + 11) + 1 := by
    simp only [List.length_append]
    have : thinkTok.length = 11 := rfl
    omega
  rw [hl]
  rw [show cleanThinkingGo (rest.length + 11 + 1) (thinkTok ++ rest) =
      (if ciStarts thinkTok (thinkTok ++ rest) then
        cleanThinkingGo (rest.length + 11) ((thinkTok ++ rest).drop 11)
      else if ciStarts doneTok (thinkTok ++ rest) then
        cleanThinkingGo (rest.length + 11) ((thinkTok ++ rest).drop 14)
      else 't' :: cleanThinkingGo (rest.length + 11) ("hinking...".data ++ rest)) from rfl]
  rw [if_pos (ciStarts_self_append (by decide) rest)]
  rw [show (thinkTok ++ rest).drop 11 = rest from by
    rw [show (11 : Nat) = thinkTok.length from rfl]
    exact List.drop_left _ _]
  exact cleanThinkingGo_fuel (by omega) (by omega)

/-- Claim C4, counterexample: the raw text `"42"` contains no left brace,
yet extraction does not return a failure — the direct-parse strategy
accepts it as a bare JSON number and `call_ollama` returns the value
`42` to the caller. -/
theorem c4_counterexample :
    "42".data.contains lb = false ∧
    extract_json_from_response "42" = "42" ∧
    jsonParse "42" = some (.num ⟨42, 0⟩) ∧
    call_ollama_result "42" = .ok (.num ⟨42, 0⟩) :=
  ⟨rfl, rfl, rfl, rfl⟩

/-- Claim C4 as amended: on raw text with no left brace the leading-noise
trim and every brace-based strategy are vacuous, so either the cleaned
text (or a fenced candidate) parses as a JSON value — which is then
returned, a bare number like `"42"` included — or extraction gives up
returning the cleaned text itself (here just the raw text with thinking
markers removed) and `call_ollama` raises carrying its first 200
characters. The direct-parse attempt is made even on empty cleaned text;
`json.loads("")` simply fails. -/
theorem c4_no_brace (content : String)
    (h : content.data.contains lb = false) :
    (jsonParse (extract_json_from_response content)).isSome = true ∨
      (extract_json_from_response content =
          String.mk (cleanRespondL (cleanThinkingL content.data)) ∧
        call_ollama_result content =
          .nonJson (String.mk ((cleanRespondL (cleanThinkingL content.data)).take 200))) := by
  have hmem : ∀ x ∈ content.data, x ≠ lb := by
    intro x hx heq
    subst heq
    exact (by simpa using h : lb ∉ content.data) hx
  have hclean : ∀ x ∈ cleanRespondL (cleanThinkingL content.data), x ≠ lb :=
    fun x hx => hmem x (mem_of_mem_cleanThinkingL (mem_of_mem_cleanRespondL hx))
  have htrim : cleanedText content.data = cleanRespondL (cleanThinkingL content.data) := by
    unfold cleanedText
    exact trimToBrace_no_brace hclean
  rcases extractL_cases content.data with hs | ⟨hgive, hfail, _⟩
  · exact Or.inl hs
  · right
    rw [htrim] at hgive hfail
    constructor
    · show String.mk (extractL content.data) = _
      rw [hgive]
    · have hnone : jsonParse (extract_json_from_response content) = none := by
        show jsonParseL (extractL content.data) = none
        rw [hgive]
        cases hj : jsonParseL (cleanRespondL (cleanThinkingL content.data)) with
        | none => rfl
        | some j =>
          rw [hj] at hfail
          cases hfail
      unfold call_ollama_result
      rw [hnone, extract_data, hgive]
      rw [braceSlice_no_brace hclean]

theorem c4_witness :
    (jsonParse (extract_json_from_response "done thinking. no json here")).isSome = true ∨
      (extract_json_from_response "done thinking. no json here" =
          String.mk (cleanRespondL (cleanThinkingL "done thinking. no json here".data)) ∧
        call_ollama_result "done thinking. no json here" =
          .nonJson (String.mk
            ((cleanRespondL (cleanThinkingL "done thinking. no json here".data)).take 200))) :=
  c4_no_brace "done thinking. no json here" rfl

set_option maxRecDepth 40000 in
/-- Claim C3, counterexample: a raw text that is already a valid JSON
object satisfying the analysis schema is *not* always returned
unchanged. First input: the marker `thinking...` sits inside the
`reason` string value and the preamble-stripping regex deletes it there,
altering the object. Second input: a single leading space makes the
leading-noise trim drop the space, so the returned text differs from the
raw text. These are exactly the two situations the claim is explicit
about. -/
theorem c3_counterexample :
    schemaOkStr "\x7b\"industry\":\"I\",\"company\":\"C\",\"symbol\":\"S\",\"direction\":\"buy\",\"confidence\":0.5,\"reason\":\"thinking...ok\",\"scores\":\x7b\"impact_size\":0.1,\"time_proximity\":0.2,\"clarity\":0.3,\"volatility_sensitivity\":0.4,\"duration\":0.5\x7d\x7d" = true ∧
    extract_json_from_response "\x7b\"industry\":\"I\",\"company\":\"C\",\"symbol\":\"S\",\"direction\":\"buy\",\"confidence\":0.5,\"reason\":\"thinking...ok\",\"scores\":\x7b\"impact_size\":0.1,\"time_proximity\":0.2,\"clarity\":0.3,\"volatility_sensitivity\":0.4,\"duration\":0.5\x7d\x7d" =
      "\x7b\"industry\":\"I\",\"company\":\"C\",\"symbol\":\"S\",\"direction\":\"buy\",\"confidence\":0.5,\"reason\":\"ok\",\"scores\":\x7b\"impact_size\":0.1,\"time_proximity\":0.2,\"clarity\":0.3,\"volatility_sensitivity\":0.4,\"duration\":0.5\x7d\x7d" ∧
    "\x7b\"industry\":\"I\",\"company\":\"C\",\"symbol\":\"S\",\"direction\":\"buy\",\"confidence\":0.5,\"reason\":\"ok\",\"scores\":\x7b\"impact_size\":0.1,\"time_proximity\":0.2,\"clarity\":0.3,\"volatility_sensitivity\":0.4,\"duration\":0.5\x7d\x7d" ≠
      "\x7b\"industry\":\"I\",\"company\":\"C\",\"symbol\":\"S\",\"direction\":\"buy\",\"confidence\":0.5,\"reason\":\"thinking...ok\",\"scores\":\x7b\"impact_size\":0.1,\"time_proximity\":0.2,\"clarity\":0.3,\"volatility_sensitivity\":0.4,\"duration\":0.5\x7d\x7d" ∧
    schemaOkStr " \x7b\"industry\":\"I\",\"company\":\"C\",\"symbol\":\"S\",\"direction\":\"buy\",\"confidence\":0.5,\"reason\":\"r\",\"scores\":\x7b\"impact_size\":0.1,\"time_proximity\":0.2,\"clarity\":0.3,\"volatility_sensitivity\":0.4,\"duration\":0.5\x7d\x7d" = true ∧
    extract_json_from_response " \x7b\"industry\":\"I\",\"company\":\"C\",\"symbol\":\"S\",\"direction\":\"buy\",\"confidence\":0.5,\"reason\":\"r\",\"scores\":\x7b\"impact_size\":0.1,\"time_proximity\":0.2,\"clarity\":0.3,\"volatility_sensitivity\":0.4,\"duration\":0.5\x7d\x7d" =
      "\x7b\"industry\":\"I\",\"company\":\"C\",\"symbol\":\"S\",\"direction\":\"buy\",\"confidence\":0.5,\"reason\":\"r\",\"scores\":\x7b\"impact_size\":0.1,\"time_proximity\":0.2,\"clarity\":0.3,\"volatility_sensitivity\":0.4,\"duration\":0.5\x7d\x7d" ∧
    "\x7b\"industry\":\"I\",\"company\":\"C\",\"symbol\":\"S\",\"direction\":\"buy\",\"confidence\":0.5,\"reason\":\"r\",\"scores\":\x7b\"impact_size\":0.1,\"time_proximity\":0.2,\"clarity\":0.3,\"volatility_sensitivity\":0.4,\"duration\":0.5\x7d\x7d" ≠
      " \x7b\"industry\":\"I\",\"company\":\"C\",\"symbol\":\"S\",\"direction\":\"buy\",\"confidence\":0.5,\"reason\":\"r\",\"scores\":\x7b\"impact_size\":0.1,\"time_proximity\":0.2,\"clarity\":0.3,\"volatility_sensitivity\":0.4,\"duration\":0.5\x7d\x7d" :=
  ⟨rfl, rfl, by decide, rfl, rfl, by decide⟩

/-- Claim C3 as amended: `extract_json_from_response` is the identity on
raw texts that are valid JSON objects satisfying the analysis schema,
*provided* the text begins with the opening brace and the two
preamble-stripping regexes leave it unchanged (no `thinking...` /
`done thinking.` / `we need to respond` occurrence, not even inside
string values); texts carrying a marker inside a string value, or
whitespace before the opening brace, are altered before being
returned. -/
theorem c3_direct_identity (s : String)
    (h1 : cleanThinkingL s.data = s.data)
    (h2 : cleanRespondL s.data = s.data)
    (h3 : s.data.head? = some lb)
    (h4 : schemaOkStr s = true) :
    extract_json_from_response s = s := by
  have hp : (jsonParseL s.data).isSome = true := by
    unfold schemaOkStr at h4
    cases hj : jsonParse s with
    | none =>
      rw [hj] at h4
      cases h4
    | some j =>
      show (jsonParse s).isSome = true
      rw [hj]
      rfl
  have hclean : cleanedText s.data = s.data := by
    unfold cleanedText
    rw [h1, h2]
    exact trimToBrace_head h3
  show String.mk (extractL s.data) = s
  unfold extractL
  rw [hclean, if_pos hp]

set_option maxRecDepth 40000 in
theorem c3_witness :
    extract_json_from_response "\x7b\"industry\":\"I\",\"company\":\"C\",\"symbol\":\"S\",\"direction\":\"hold\",\"confidence\":0.5,\"reason\":\"r\",\"scores\":\x7b\"impact_size\":0.1,\"time_proximity\":0.2,\"clarity\":0.3,\"volatility_sensitivity\":0.4,\"duration\":0.5\x7d\x7d" =
      "\x7b\"industry\":\"I\",\"company\":\"C\",\"symbol\":\"S\",\"direction\":\"hold\",\"confidence\":0.5,\"reason\":\"r\",\"scores\":\x7b\"impact_size\":0.1,\"time_proximity\":0.2,\"clarity\":0.3,\"volatility_sensitivity\":0.4,\"duration\":0.5\x7d\x7d" :=
  c3_direct_identity _ rfl rfl rfl rfl

/-- Claim C5, counterexample: with noise that itself contains a left
brace (`"\x7b oops"`) between the `thinking...` preamble and the valid
embedded object, extraction does *not* return the embedded object: the
leading-noise trim anchors on the noise's brace, every recovery pattern
then produces only unparseable candidates, and the extractor gives up
returning the cleaned text. -/
theorem c5_counterexample :
    extract_json_from_response "thinking...\x7b oops\x7b\"valid\":\"json\"\x7d" =
      "\x7b oops\x7b\"valid\":\"json\"\x7d" ∧
    extract_json_from_response "thinking...\x7b oops\x7b\"valid\":\"json\"\x7d" ≠
      "\x7b\"valid\":\"json\"\x7d" ∧
    (jsonParse "\x7b\"valid\":\"json\"\x7d").isSome = true :=
  ⟨rfl, by decide, rfl⟩

/-- Claim C5 as amended: for raw texts of the form
`"thinking..." ++ noise ++ jtxt` where the noise contains no left brace
and `jtxt` is a valid JSON text starting with its opening brace that the
marker-stripping passes leave unchanged, extraction strips the preamble
marker and everything before the first left brace and returns the
embedded JSON text exactly. -/
theorem c5_preamble_strip (noise jtxt : String)
    (h1 : noise.data.contains lb = false)
    (h2 : jtxt.data.head? = some lb)
    (h3 : (jsonParse jtxt).isSome = true)
    (h4 : cleanThinkingL jtxt.data = jtxt.data)
    (h5 : cleanRespondL jtxt.data = jtxt.data) :
    extract_json_from_response ("thinking..." ++ noise ++ jtxt) = jtxt := by
  have hnoise : ∀ x ∈ noise.data, x ≠ lb := by
    intro x hx heq
    subst heq
    exact (by simpa using h1 : lb ∉ noise.data) hx
  have hdata : ("thinking..." ++ noise ++ jtxt).data =
      (thinkTok ++ noise.data) ++ jtxt.data := by
    rw [strDataAppend, strDataAppend]
    rfl
  have hstep1 : cleanThinkingL ((thinkTok ++ noise.data) ++ jtxt.data) =
      cleanThinkingL noise.data ++ jtxt.data := by
    rw [cleanThinkingL_append h2, h4, cleanThinkingL_thinkTok]
  have hN : ∀ x ∈ cleanThinkingL noise.data, x ≠ lb :=
    fun x hx => hnoise x (mem_of_mem_cleanThinkingL hx)
  have hstep2 : cleanRespondL (cleanThinkingL noise.data ++ jtxt.data) =
      respondScrub (cleanThinkingL noise.data) ++ jtxt.data := by
    rw [cleanRespondL_append h2 hN, h5]
  have hX : ∀ x ∈ respondScrub (cleanThinkingL noise.data), x ≠ lb :=
    fun x hx => hN x (mem_of_mem_respondScrub hx)
  have hclean : cleanedText ("thinking..." ++ noise ++ jtxt).data = jtxt.data := by
    unfold cleanedText
    rw [hdata, hstep1, hstep2]
    exact trimToBrace_append hX h2
  show String.mk (extractL ("thinking..." ++ noise ++ jtxt).data) = jtxt
  unfold extractL
  rw [hclean, if_pos (show (jsonParseL jtxt.data).isSome = true from h3)]

theorem c5_witness :
    extract_json_from_response ("thinking..." ++ "abc" ++ "\x7b\"valid\":\"json\"\x7d") =
      "\x7b\"valid\":\"json\"\x7d" :=
  c5_preamble_strip "abc" "\x7b\"valid\":\"json\"\x7d" rfl rfl rfl rfl rfl

end Llm
